import Mathlib

/-!
Verification of the rustache template engine core against its source
(src/lib.rs, src/parser.rs, src/template.rs).

The parser (src/parser.rs, parse_nodes) turns a flat token list into a node
tree; the renderer (src/template.rs, Template::render_data) walks a node list
against a flat key/data store; the data model (src/lib.rs, enum Data) carries
the typed values and a custom PartialEq.  Rust strings are modelled as Lean
String, char-by-char operations run on the underlying character list, fail!
(panic) is modelled as Except.error carrying the panic message, and the f64
payload of Data::Float is abstracted as a type parameter since no claim
depends on float arithmetic.
-/

/-- Lexical tokens handed to the parser by the external compiler
(compiler::Token as consumed in src/parser.rs): Text(text),
Variable(name, raw), OTag(name, inverted, raw), CTag(name, raw),
Raw(name, raw) and Partial(name, raw) (the last one is called Part here
because its Rust name is not a legal Lean identifier). -/
inductive Token where
  | Text : String → Token
  | Variable : String → String → Token
  | OTag : String → Bool → String → Token
  | CTag : String → String → Token
  | Raw : String → String → Token
  | Part : String → String → Token
deriving DecidableEq

/-- Parser output (src/parser.rs, enum Node): Static(text), Value(name, raw),
Section(name, children, inverted, otag raw text, ctag raw text),
Unescaped(name, raw) and Part(name, raw). -/
inductive Node where
  | Static : String → Node
  | Value : String → String → Node
  | Section : String → List Node → Bool → String → String → Node
  | Unescaped : String → String → Node
  | Part : String → String → Node

/-- Character-list split on the dot separator, modelling the Rust call
name.split_str(".") of src/parser.rs for its single-character separator:
every occurrence of the dot ends the current segment. -/
def splitDots : List Char → List (List Char)
  | [] => [[]]
  | c :: rest =>
    if c = '.' then [] :: splitDots rest
    else
      match splitDots rest with
      | [] => [[c]]
      | seg :: segs => (c :: seg) :: segs

/-- The segments of a dotted name as strings (parts in src/parser.rs). -/
def dotParts (name : String) : List String :=
  (splitDots name.data).map String.mk

/-- Rust name.contains_char of src/parser.rs, on the character list. -/
def containsChar (s : String) (c : Char) : Bool :=
  s.data.contains c

/-- The Variable arm of parse_nodes (src/parser.rs lines 26-46): a name
without a dot becomes Value(name, raw); a dotted name is rewritten into a
synthetic Section keyed on the first segment whose sole child is a Value
keyed on the last segment, with reconstructed open, close and variable tag
texts. -/
def variableNode (name raw : String) : Node :=
  if containsChar name '.' then
    let parts := dotParts name
    let sectionKey := parts.headD ""
    let varKey := parts.getLastD ""
    Node.Section sectionKey
      [Node.Value varKey ("\x7b\x7b" ++ varKey ++ "\x7d\x7d")] false
      ("\x7b\x7b#" ++ sectionKey ++ "\x7d\x7d")
      ("\x7b\x7b/" ++ sectionKey ++ "\x7d\x7d")
  else
    Node.Value name raw

/-- The Raw arm of parse_nodes (src/parser.rs lines 47-78): like the
Variable arm but producing Unescaped nodes; the reconstructed variable tag
uses the ampersand form when the raw tag text contains an ampersand and the
triple-brace form otherwise. -/
def rawNode (name raw : String) : Node :=
  if containsChar name '.' then
    let parts := dotParts name
    let sectionKey := parts.headD ""
    let varKey := parts.getLastD ""
    let varTag :=
      if containsChar raw '&' then "\x7b\x7b&" ++ varKey ++ "\x7d\x7d"
      else "\x7b\x7b\x7b" ++ varKey ++ "\x7d\x7d\x7d"
    Node.Section sectionKey [Node.Unescaped varKey varTag] false
      ("\x7b\x7b#" ++ sectionKey ++ "\x7d\x7d")
      ("\x7b\x7b/" ++ sectionKey ++ "\x7d\x7d")
  else
    Node.Unescaped name raw

/-- children.push of the scan loop in src/parser.rs: join the scanned token
to the front of the child list of a successful scan result. -/
def pushTok (t : Token) : Option (List Token × String × List Token) → Option (List Token × String × List Token)
  | some (ch, temp, af) => some (t :: ch, temp, af)
  | none => none

/-- Inversion of pushTok on a successful result. -/
theorem pushTok_some {t : Token} {r : Option (List Token × String × List Token)}
    {ch : List Token} {temp : String} {af : List Token}
    (h : pushTok t r = some (ch, temp, af)) :
    ∃ ch', r = some (ch', temp, af) ∧ ch = t :: ch' := by
  cases r with
  | none => simp [pushTok] at h
  | some p =>
    obtain ⟨ch', temp', af'⟩ := p
    simp only [pushTok, Option.some.injEq, Prod.mk.injEq] at h
    obtain ⟨h1, h2, h3⟩ := h
    exact ⟨ch', by rw [h2, h3], h1.symm⟩

/-- The forward scan of the OTag arm of parse_nodes (src/parser.rs lines
85-115): walk the tokens after an open tag named name carrying the same-name
counter otagCount (seeded with 1 by the caller); a same-name open increments
the counter and joins the children, a same-name close with counter 1 is the
match (returning the children collected so far, the close tag's raw text and
the tokens after the close), a same-name close with a larger counter
decrements it and joins the children, and every other token joins the
children; none when no close matches before the end. -/
def seekClose (name : String) : List Token → Nat → Option (List Token × String × List Token)
  | [], _ => none
  | t :: rest, otagCount =>
    match t with
    | Token.OTag title _ _ =>
      if title = name then pushTok t (seekClose name rest (otagCount + 1))
      else pushTok t (seekClose name rest otagCount)
    | Token.CTag title temp =>
      if title = name ∧ otagCount = 1 then some ([], temp, rest)
      else if title = name ∧ otagCount > 1 then
        pushTok t (seekClose name rest (otagCount - 1))
      else pushTok t (seekClose name rest otagCount)
    | Token.Text _ => pushTok t (seekClose name rest otagCount)
    | Token.Variable _ _ => pushTok t (seekClose name rest otagCount)
    | Token.Raw _ _ => pushTok t (seekClose name rest otagCount)
    | Token.Part _ _ => pushTok t (seekClose name rest otagCount)

/-- A successful seekClose splits its input: the children, the matched close
tag and the suffix after it partition the scanned list (termination measure
for parse_nodes). -/
theorem seekClose_length (name : String) :
    ∀ (l : List Token) (cnt : Nat) (ch : List Token) (temp : String) (af : List Token),
      seekClose name l cnt = some (ch, temp, af) →
      ch.length + af.length + 1 = l.length := by
  intro l
  induction l with
  | nil => intro cnt ch temp af h; simp [seekClose] at h
  | cons t rest ih =>
    intro cnt ch temp af h
    cases t with
    | OTag title inv raw =>
      rw [seekClose] at h
      by_cases ht : title = name
      · rw [if_pos ht] at h
        obtain ⟨ch', hs, hc⟩ := pushTok_some h
        subst hc
        have := ih (cnt + 1) ch' temp af hs
        simp only [List.length_cons]
        omega
      · rw [if_neg ht] at h
        obtain ⟨ch', hs, hc⟩ := pushTok_some h
        subst hc
        have := ih cnt ch' temp af hs
        simp only [List.length_cons]
        omega
    | CTag title temp2 =>
      rw [seekClose] at h
      by_cases h1 : title = name ∧ cnt = 1
      · rw [if_pos h1] at h
        simp only [Option.some.injEq, Prod.mk.injEq] at h
        obtain ⟨hc, ht2, ha⟩ := h
        subst hc; subst ha
        simp
      · rw [if_neg h1] at h
        by_cases h2 : title = name ∧ cnt > 1
        · rw [if_pos h2] at h
          obtain ⟨ch', hs, hc⟩ := pushTok_some h
          subst hc
          have := ih (cnt - 1) ch' temp af hs
          simp only [List.length_cons]
          omega
        · rw [if_neg h2] at h
          obtain ⟨ch', hs, hc⟩ := pushTok_some h
          subst hc
          have := ih cnt ch' temp af hs
          simp only [List.length_cons]
          omega
    | Text s =>
      rw [seekClose] at h
      obtain ⟨ch', hs, hc⟩ := pushTok_some h
      subst hc
      have := ih cnt ch' temp af hs
      simp only [List.length_cons]
      omega
    | Variable n r =>
      rw [seekClose] at h
      obtain ⟨ch', hs, hc⟩ := pushTok_some h
      subst hc
      have := ih cnt ch' temp af hs
      simp only [List.length_cons]
      omega
    | Raw n r =>
      rw [seekClose] at h
      obtain ⟨ch', hs, hc⟩ := pushTok_some h
      subst hc
      have := ih cnt ch' temp af hs
      simp only [List.length_cons]
      omega
    | Part n r =>
      rw [seekClose] at h
      obtain ⟨ch', hs, hc⟩ := pushTok_some h
      subst hc
      have := ih cnt ch' temp af hs
      simp only [List.length_cons]
      omega

/-- parse_nodes (src/parser.rs lines 17-131): Text, Variable, Raw and Partial
tokens each map to one node (dotted names desugar per variableNode/rawNode);
a CTag met outside the scan of a corresponding OTag is ignored; an OTag scans
forward with seekClose, and on a match emits a Section whose children are the
recursively parsed collected tokens and continues after the matched close
(the matched close itself is consumed by the CTag-ignoring arm in the
source).  When no close matches, the source advances its iterator count-1
positions past the scanned count tokens, so the last token of the list is
still processed (and when the open was the final token nothing remains). -/
def parse_nodes : List Token → List Node
  | [] => []
  | Token.Text text :: rest => Node.Static text :: parse_nodes rest
  | Token.Variable name raw :: rest => variableNode name raw :: parse_nodes rest
  | Token.Raw name raw :: rest => rawNode name raw :: parse_nodes rest
  | Token.Part name raw :: rest => Node.Part name raw :: parse_nodes rest
  | Token.CTag _ _ :: rest => parse_nodes rest
  | Token.OTag name inverted raw :: rest =>
    match h : seekClose name rest 1 with
    | some (children, temp, after) =>
      Node.Section name (parse_nodes children) inverted raw temp :: parse_nodes after
    | none =>
      match h2 : rest.getLast? with
      | some t => parse_nodes [t]
      | none => []
termination_by l => l.length
decreasing_by
  all_goals simp_wf
  all_goals try (have hlen := seekClose_length name rest 1 children temp after h; omega)
  cases rest with
  | nil => simp [List.getLast?] at h2
  | cons a l => simp

/-- Spec-side description of the matching-close search (spec section 4.1 step
3 and claim C4): walking the tokens after an open tag named name with the
same-name nesting counter (seeded with 1 by the caller), each later same-name
open increments the counter, each same-name close decrements it, and the
close that brings it to zero is the match, whose position in the walked list
is returned. -/
def specMatchIndex (name : String) : List Token → Nat → Option Nat
  | [], _ => none
  | t :: rest, cnt =>
    match t with
    | Token.OTag title _ _ =>
      if title = name then (specMatchIndex name rest (cnt + 1)).map (· + 1)
      else (specMatchIndex name rest cnt).map (· + 1)
    | Token.CTag title _ =>
      if title = name then
        if cnt = 1 then some 0
        else (specMatchIndex name rest (cnt - 1)).map (· + 1)
      else (specMatchIndex name rest cnt).map (· + 1)
    | Token.Text _ => (specMatchIndex name rest cnt).map (· + 1)
    | Token.Variable _ _ => (specMatchIndex name rest cnt).map (· + 1)
    | Token.Raw _ _ => (specMatchIndex name rest cnt).map (· + 1)
    | Token.Part _ _ => (specMatchIndex name rest cnt).map (· + 1)

/-- The source scan seekClose realises the spec-side counter description:
when the counter rule designates position k, the token there is the matching
close tag, the collected children are exactly the tokens strictly before k,
and the returned suffix is exactly the tokens after k. -/
theorem seekClose_spec (name : String) :
    ∀ (l : List Token) (cnt k : Nat), specMatchIndex name l cnt = some k →
      ∃ temp, l.get? k = some (Token.CTag name temp) ∧
        seekClose name l cnt = some (l.take k, temp, l.drop (k + 1)) := by
  intro l
  induction l with
  | nil => intro cnt k hs; simp [specMatchIndex] at hs
  | cons t rest ih =>
    intro cnt k hs
    cases t with
    | OTag title inv raw =>
      rw [specMatchIndex] at hs
      by_cases ht : title = name
      · rw [if_pos ht] at hs
        rw [Option.map_eq_some'] at hs
        obtain ⟨k', hk', hkk⟩ := hs
        subst hkk
        obtain ⟨temp, hget, hseek⟩ := ih (cnt + 1) k' hk'
        refine ⟨temp, by simpa using hget, ?_⟩
        rw [seekClose, if_pos ht, hseek, pushTok]
        simp
      · rw [if_neg ht] at hs
        rw [Option.map_eq_some'] at hs
        obtain ⟨k', hk', hkk⟩ := hs
        subst hkk
        obtain ⟨temp, hget, hseek⟩ := ih cnt k' hk'
        refine ⟨temp, by simpa using hget, ?_⟩
        rw [seekClose, if_neg ht, hseek, pushTok]
        simp
    | CTag title temp2 =>
      rw [specMatchIndex] at hs
      by_cases ht : title = name
      · rw [if_pos ht] at hs
        by_cases hc : cnt = 1
        · rw [if_pos hc] at hs
          simp only [Option.some.injEq] at hs
          subst hs
          subst ht
          exact ⟨temp2, by simp, by rw [seekClose, if_pos ⟨rfl, hc⟩]; simp⟩
        · rw [if_neg hc] at hs
          rw [Option.map_eq_some'] at hs
          obtain ⟨k', hk', hkk⟩ := hs
          subst hkk
          obtain ⟨temp, hget, hseek⟩ := ih (cnt - 1) k' hk'
          refine ⟨temp, by simpa using hget, ?_⟩
          have hnot : ¬(title = name ∧ cnt = 1) := fun hh => hc hh.2
          by_cases hgt : cnt > 1
          · rw [seekClose, if_neg hnot, if_pos ⟨ht, hgt⟩, hseek, pushTok]
            simp
          · have hzero : cnt = 0 := by omega
            have hnot2 : ¬(title = name ∧ cnt > 1) := fun hh => hgt hh.2
            rw [seekClose, if_neg hnot, if_neg hnot2]
            have : cnt - 1 = cnt := by omega
            rw [this] at hseek
            rw [hseek, pushTok]
            simp
      · rw [if_neg ht] at hs
        rw [Option.map_eq_some'] at hs
        obtain ⟨k', hk', hkk⟩ := hs
        subst hkk
        obtain ⟨temp, hget, hseek⟩ := ih cnt k' hk'
        refine ⟨temp, by simpa using hget, ?_⟩
        have hnot : ¬(title = name ∧ cnt = 1) := fun hh => ht hh.1
        have hnot2 : ¬(title = name ∧ cnt > 1) := fun hh => ht hh.1
        rw [seekClose, if_neg hnot, if_neg hnot2, hseek, pushTok]
        simp
    | Text s =>
      rw [specMatchIndex] at hs
      rw [Option.map_eq_some'] at hs
      obtain ⟨k', hk', hkk⟩ := hs
      subst hkk
      obtain ⟨temp, hget, hseek⟩ := ih cnt k' hk'
      refine ⟨temp, by simpa using hget, ?_⟩
      rw [seekClose, hseek, pushTok]
      simp
    | Variable n r =>
      rw [specMatchIndex] at hs
      rw [Option.map_eq_some'] at hs
      obtain ⟨k', hk', hkk⟩ := hs
      subst hkk
      obtain ⟨temp, hget, hseek⟩ := ih cnt k' hk'
      refine ⟨temp, by simpa using hget, ?_⟩
      rw [seekClose, hseek, pushTok]
      simp
    | Raw n r =>
      rw [specMatchIndex] at hs
      rw [Option.map_eq_some'] at hs
      obtain ⟨k', hk', hkk⟩ := hs
      subst hkk
      obtain ⟨temp, hget, hseek⟩ := ih cnt k' hk'
      refine ⟨temp, by simpa using hget, ?_⟩
      rw [seekClose, hseek, pushTok]
      simp
    | Part n r =>
      rw [specMatchIndex] at hs
      rw [Option.map_eq_some'] at hs
      obtain ⟨k', hk', hkk⟩ := hs
      subst hkk
      obtain ⟨temp, hget, hseek⟩ := ih cnt k' hk'
      refine ⟨temp, by simpa using hget, ?_⟩
      rw [seekClose, hseek, pushTok]
      simp

/-- A token is neither a section-open nor a section-close. -/
def nonSection : Token → Bool
  | Token.OTag _ _ _ => false
  | Token.CTag _ _ => false
  | _ => true

/-- The single node a non-section token maps to in parse_nodes (Text, the
Variable arm via variableNode, the Raw arm via rawNode, and Partial; the
section tokens are given an arbitrary placeholder, they are never mapped
through this function). -/
def simpleNode : Token → Node
  | Token.Text t => Node.Static t
  | Token.Variable name raw => variableNode name raw
  | Token.Raw name raw => rawNode name raw
  | Token.Part name raw => Node.Part name raw
  | Token.OTag _ _ _ => Node.Static ""
  | Token.CTag _ _ => Node.Static ""

/-- Tree shapes: nodes with every stored raw tag text erased, used to state
that two parses agree as trees (claim C6 speaks of tree shape). -/
inductive Shape where
  | Static : String → Shape
  | Value : String → Shape
  | Unescaped : String → Shape
  | Section : String → List Shape → Bool → Shape
  | Part : String → Shape

mutual

/-- Erase the raw tag texts of a node, keeping keys, static text, the
inverted flag and the child structure. -/
def shapeOf : Node → Shape
  | Node.Static t => Shape.Static t
  | Node.Value k _ => Shape.Value k
  | Node.Unescaped k _ => Shape.Unescaped k
  | Node.Section k ch inv _ _ => Shape.Section k (shapesOf ch) inv
  | Node.Part k _ => Shape.Part k

/-- Erase the raw tag texts of every node in a list. -/
def shapesOf : List Node → List Shape
  | [] => []
  | n :: rest => shapeOf n :: shapesOf rest

end

/-- Data model from src/lib.rs (enum Data): Strng, Bool, Integer (i32),
Float (f64), Vector, Hash and Lambda.  The f64 payload is abstracted as the
type parameter α because no claim depends on float arithmetic; the Lambda
closure payload is an opaque Nat identity, since the source never inspects
the closure when comparing, only its variant; the HashMap payload is
modelled as an association list with unique keys. -/
inductive Data (α : Type) where
  | Strng : String → Data α
  | Bool : Bool → Data α
  | Integer : Int → Data α
  | Float : α → Data α
  | Vector : List (Data α) → Data α
  | Hash : List (String × Data α) → Data α
  | Lambda : Nat → Data α

/-- Whether a data value is the Lambda variant. -/
def isLambda {α : Type} : Data α → Bool
  | Data.Lambda _ => true
  | _ => false

/-- Per-character HTML escape of Template::escape_html (src/template.rs lines
11-23), with the source's match arms in the source's order. -/
def escapeChar (c : Char) : List Char :=
  if c = '<' then "&lt;".data
  else if c = '>' then "&gt;".data
  else if c = '&' then "&amp;".data
  else if c = '"' then "&quot;".data
  else [c]

/-- The character loop of Template::escape_html: escape the characters in
order and join the results. -/
def escapeList : List Char → List Char
  | [] => []
  | c :: cs => escapeChar c ++ escapeList cs

/-- Template::escape_html (src/template.rs lines 11-23) on whole strings. -/
def escape_html (input : String) : String :=
  String.mk (escapeList input.data)

/-- Modelled from the spec in its Integer, Float and Lambda arms, which are
missing from src/src/template.rs: the match of Template::handle_unescaped_node
(src/template.rs lines 25-50) covers only Str, Bool, Vector and Hash, while
src/src/lib.rs declares Data::Integer, Data::Float and Data::Lambda; spec
section 4.2 says numbers render in their natural decimal form (the decimal
form of the abstracted f64 payload is the parameter frepr) and that a
scalar-output node resolving to a Lambda is a fatal type mismatch.  The Str,
Bool, Vector and Hash arms are translated from the source: Str passes the
text through unescaped, Bool renders "true"/"false", and Vector/Hash hit
fail! (modelled as Except.error with the source's panic message). -/
def handle_unescaped_node {α : Type} (frepr : α → String) : Data α → Except String String
  | Data.Strng val => Except.ok val
  | Data.Bool val => Except.ok (if val then "true" else "false")
  | Data.Vector _ => Except.error "expecting text, found vector data"
  | Data.Hash _ => Except.error "expecting text, found hash data"
  | Data.Integer n => Except.ok (toString n)
  | Data.Float f => Except.ok (frepr f)
  | Data.Lambda _ => Except.error "expecting text, found lambda data"

/-- Modelled from the spec in its Integer, Float and Lambda arms, exactly as
for handle_unescaped_node (those arms are missing from src/src/template.rs).
The Str, Bool, Vector and Hash arms are translated from
Template::handle_value_node (src/template.rs lines 52-77): identical to the
unescaped handler except that the Str arm passes the text through
escape_html. -/
def handle_value_node {α : Type} (frepr : α → String) : Data α → Except String String
  | Data.Strng val => Except.ok (escape_html val)
  | Data.Bool val => Except.ok (if val then "true" else "false")
  | Data.Vector _ => Except.error "expecting text, found vector data"
  | Data.Hash _ => Except.error "expecting text, found hash data"
  | Data.Integer n => Except.ok (toString n)
  | Data.Float f => Except.ok (frepr f)
  | Data.Lambda _ => Except.error "expecting text, found lambda data"

/-- Template::render_data (src/template.rs lines 79-108): walk the node
list; an Unescaped or Value node whose key is present in the datastore
renders through its handler (a handler error models fail! and aborts the
whole render), an absent key renders nothing, a Static node writes its text,
and every other node kind (Section, Part) falls to the source's catch-all
arm and renders nothing.  The datastore models HashBuilder.data, a flat
string-to-data map, as an association list consulted with List.lookup; the
writer is modelled by returning the concatenated output. -/
def render_data {α : Type} (frepr : α → String) :
    List Node → List (String × Data α) → Except String String
  | [], _ => Except.ok ""
  | Node.Unescaped key _ :: rest, datastore =>
    (match datastore.lookup key with
     | some val =>
       (match handle_unescaped_node frepr val with
        | Except.error e => Except.error e
        | Except.ok s =>
          (match render_data frepr rest datastore with
           | Except.error e => Except.error e
           | Except.ok t => Except.ok (s ++ t)))
     | none => render_data frepr rest datastore)
  | Node.Value key _ :: rest, datastore =>
    (match datastore.lookup key with
     | some val =>
       (match handle_value_node frepr val with
        | Except.error e => Except.error e
        | Except.ok s =>
          (match render_data frepr rest datastore with
           | Except.error e => Except.error e
           | Except.ok t => Except.ok (s ++ t)))
     | none => render_data frepr rest datastore)
  | Node.Static key :: rest, datastore =>
    (match render_data frepr rest datastore with
     | Except.error e => Except.error e
     | Except.ok t => Except.ok (key ++ t))
  | Node.Section _ _ _ _ _ :: rest, datastore => render_data frepr rest datastore
  | Node.Part _ _ :: rest, datastore => render_data frepr rest datastore

mutual

/-- PartialEq for Data (src/lib.rs lines 80-93): matching variants compare
payloads (the abstracted f64 equality is the parameter feq), comparing two
Lambda values panics ("Can't compare closures", modelled as Except.error
with the panic message), and every other pairing is false.  Vec equality
compares lengths first and then elements in order, a panic in an element
comparison propagating; HashMap equality compares lengths first and then,
for each key of the left map, looks the key up on the right and compares the
values (the association list's order stands in for HashMap iteration
order). -/
def dataEq {α : Type} (feq : α → α → Bool) : Data α → Data α → Except String Bool
  | Data.Strng a, Data.Strng b => Except.ok (a == b)
  | Data.Bool a, Data.Bool b => Except.ok (a == b)
  | Data.Integer a, Data.Integer b => Except.ok (a == b)
  | Data.Float a, Data.Float b => Except.ok (feq a b)
  | Data.Vector a, Data.Vector b =>
    if a.length = b.length then vecElemsEq feq a b else Except.ok false
  | Data.Hash a, Data.Hash b =>
    if a.length = b.length then hashEntriesEq feq a b else Except.ok false
  | Data.Lambda _, Data.Lambda _ => Except.error "Can't compare closures"
  | _, _ => Except.ok false
termination_by x y => sizeOf x + sizeOf y
decreasing_by
  all_goals simp_wf
  all_goals omega

/-- Ordered element-wise Vec comparison for dataEq, short-circuiting on the
first unequal pair and propagating a panic. -/
def vecElemsEq {α : Type} (feq : α → α → Bool) : List (Data α) → List (Data α) → Except String Bool
  | [], [] => Except.ok true
  | x :: xs, y :: ys =>
    (match dataEq feq x y with
     | Except.error e => Except.error e
     | Except.ok true => vecElemsEq feq xs ys
     | Except.ok false => Except.ok false)
  | _, _ => Except.ok false
termination_by a b => sizeOf a + sizeOf b
decreasing_by
  all_goals simp_wf
  all_goals omega

/-- HashMap comparison for dataEq: every entry of the left map must have an
equal value under its key on the right. -/
def hashEntriesEq {α : Type} (feq : α → α → Bool) : List (String × Data α) → List (String × Data α) → Except String Bool
  | [], _ => Except.ok true
  | (k, v) :: restEntries, other =>
    (match hashFindEq feq k v other with
     | Except.error e => Except.error e
     | Except.ok true => hashEntriesEq feq restEntries other
     | Except.ok false => Except.ok false)
termination_by a b => sizeOf a + sizeOf b
decreasing_by
  all_goals simp_wf
  all_goals omega

/-- Look key k up in the right map and compare its value with v (false when
the key is absent, as HashMap::get returning None compares unequal). -/
def hashFindEq {α : Type} (feq : α → α → Bool) (k : String) (v : Data α) : List (String × Data α) → Except String Bool
  | [] => Except.ok false
  | (k2, w) :: restOther =>
    if k2 = k then dataEq feq v w else hashFindEq feq k v restOther
termination_by l => sizeOf v + sizeOf l
decreasing_by
  all_goals simp_wf
  all_goals omega

end

/-- Whether a character is one of the four characters escape_html rewrites. -/
def isEscChar (c : Char) : Bool :=
  c = '&' || c = '<' || c = '>' || c = '"'

/-- escapeChar leaves every character outside the four escaped ones alone. -/
theorem escapeChar_nonspecial {c : Char} (h1 : c ≠ '&') (h2 : c ≠ '<')
    (h3 : c ≠ '>') (h4 : c ≠ '"') : escapeChar c = [c] := by
  rw [escapeChar, if_neg h2, if_neg h3, if_neg h1, if_neg h4]

/-- Every character escapes to at least one character. -/
theorem escapeChar_length_pos (c : Char) : 1 ≤ (escapeChar c).length := by
  by_cases h1 : c = '<'
  · subst h1; decide
  by_cases h2 : c = '>'
  · subst h2; decide
  by_cases h3 : c = '&'
  · subst h3; decide
  by_cases h4 : c = '"'
  · subst h4; decide
  rw [escapeChar_nonspecial h3 h1 h2 h4]
  simp

/-- Escaping never shortens a character list. -/
theorem escapeList_length_ge (l : List Char) : l.length ≤ (escapeList l).length := by
  induction l with
  | nil => simp [escapeList]
  | cons c cs ih =>
    have := escapeChar_length_pos c
    simp only [escapeList, List.length_append, List.length_cons]
    omega

/-- The escape of one of the four escaped characters contains an ampersand
(every entity starts with one). -/
theorem escapeChar_amp_mem {c : Char} (h : isEscChar c = true) : '&' ∈ escapeChar c := by
  by_cases h1 : c = '<'
  · subst h1; decide
  by_cases h2 : c = '>'
  · subst h2; decide
  by_cases h3 : c = '&'
  · subst h3; decide
  by_cases h4 : c = '"'
  · subst h4; decide
  simp [isEscChar, h1, h2, h3, h4] at h

/-- A list containing one of the four escaped characters escapes to a list
containing an ampersand. -/
theorem escapeList_amp_mem {l : List Char} (h : l.any isEscChar = true) :
    '&' ∈ escapeList l := by
  induction l with
  | nil => simp at h
  | cons c cs ih =>
    rw [List.any_cons, Bool.or_eq_true] at h
    rw [escapeList, List.mem_append]
    cases h with
    | inl hc => exact Or.inl (escapeChar_amp_mem hc)
    | inr hrest => exact Or.inr (ih hrest)

/-- Escaping a list containing an ampersand strictly lengthens it. -/
theorem escapeList_grow {l : List Char} (h : '&' ∈ l) :
    l.length < (escapeList l).length := by
  induction l with
  | nil => simp at h
  | cons c cs ih =>
    rw [List.mem_cons] at h
    rw [escapeList, List.length_append, List.length_cons]
    by_cases hc : c = '&'
    · have h5 : (escapeChar c).length = 5 := by subst hc; decide
      have := escapeList_length_ge cs
      omega
    · have hcs : '&' ∈ cs := by
        cases h with
        | inl h' => exact absurd h'.symm hc
        | inr h' => exact h'
      have := escapeChar_length_pos c
      have := ih hcs
      omega

/-- Escaping is the identity on lists free of the four escaped characters. -/
theorem escapeList_id {l : List Char} (h : l.all (fun c => !isEscChar c) = true) :
    escapeList l = l := by
  induction l with
  | nil => rfl
  | cons c cs ih =>
    rw [List.all_cons, Bool.and_eq_true] at h
    obtain ⟨hc, hcs⟩ := h
    rw [Bool.not_eq_true'] at hc
    rw [isEscChar, Bool.or_eq_false_iff, Bool.or_eq_false_iff, Bool.or_eq_false_iff] at hc
    obtain ⟨⟨⟨a1, a2⟩, a3⟩, a4⟩ := hc
    rw [decide_eq_false_iff_not] at a1 a2 a3 a4
    rw [escapeList, escapeChar_nonspecial a1 a2 a3 a4, ih hcs]
    rfl

/-- C1 (amended): render_data writes nothing for every Section node, whether
inverted or not and whether its key is in the datastore or not: the renderer
of src/template.rs handles only Value, Unescaped and Static nodes and its
catch-all arm skips sections, so a Section node contributes nothing to the
output and the rest of the node list renders as if the section were absent. -/
theorem c1_sections_render_nothing {α : Type} (frepr : α → String)
    (name : String) (children : List Node) (inverted : Bool) (ot ct : String)
    (rest : List Node) (datastore : List (String × Data α)) :
    render_data frepr (Node.Section name children inverted ot ct :: rest) datastore =
      render_data frepr rest datastore ∧
    render_data frepr [Node.Section name children inverted ot ct] datastore =
      Except.ok "" :=
  ⟨rfl, rfl⟩

/-- C1 counterexample: the claim says rendering the inverted section
over the missing key writes its children once, so that the one-node template
of an inverted section named missing with static child X renders "X" against
an empty context; the code renders "" there, because render_data has no
Section arm and skips the node. -/
theorem c1_counterexample_inverted_missing :
    render_data (fun n : Int => toString n)
      [Node.Section "missing" [Node.Static "X"] true "o" "c"] [] = Except.ok "" ∧
    ("" : String) ≠ "X" :=
  ⟨rfl, by decide⟩

/-- C2: a Value or Unescaped node whose key resolves to a Vector (List) or
Hash (Map) makes rendering fail with the type-mismatch panic message,
aborting the whole render no matter what nodes follow, so the single-node
template produces no output, only the error. -/
theorem c2_scalar_node_type_mismatch {α : Type} (frepr : α → String)
    (key raw : String) (rest : List Node) (datastore : List (String × Data α)) :
    (∀ v, datastore.lookup key = some (Data.Vector v) →
      render_data frepr (Node.Value key raw :: rest) datastore =
        Except.error "expecting text, found vector data" ∧
      render_data frepr (Node.Unescaped key raw :: rest) datastore =
        Except.error "expecting text, found vector data") ∧
    (∀ hm, datastore.lookup key = some (Data.Hash hm) →
      render_data frepr (Node.Value key raw :: rest) datastore =
        Except.error "expecting text, found hash data" ∧
      render_data frepr (Node.Unescaped key raw :: rest) datastore =
        Except.error "expecting text, found hash data") := by
  constructor
  · intro v hv
    constructor <;> simp [render_data, hv, handle_value_node, handle_unescaped_node]
  · intro hm hv
    constructor <;> simp [render_data, hv, handle_value_node, handle_unescaped_node]

/-- C2 witness: rendering the one-node template for value1 against a
datastore binding value1 to a vector raises the vector type-mismatch
error. -/
theorem c2_witness :
    ([("value1", (Data.Vector [Data.Strng "Prophet Velen"] : Data Int))].lookup "value1" =
      some (Data.Vector [Data.Strng "Prophet Velen"])) ∧
    render_data (fun n : Int => toString n) [Node.Value "value1" "t"]
      [("value1", Data.Vector [Data.Strng "Prophet Velen"])] =
      Except.error "expecting text, found vector data" :=
  ⟨rfl,
    ((c2_scalar_node_type_mismatch (fun n : Int => toString n) "value1" "t" []
      [("value1", Data.Vector [Data.Strng "Prophet Velen"])]).1
      [Data.Strng "Prophet Velen"] rfl).1⟩

/-- C3: escape_html rewrites exactly the ampersand, angle-bracket and
double-quote characters to their entities in one pass and leaves every other
character (the apostrophe included) unchanged; rendering the escaped node
over the sample string produces the escaped output, and the unescaped node
returns the input unchanged. -/
theorem c3_escape_exactly_four :
    (∀ c : Char, c ≠ '&' → c ≠ '<' → c ≠ '>' → c ≠ '"' → escapeChar c = [c]) ∧
    escapeChar '&' = "&amp;".data ∧
    escapeChar '<' = "&lt;".data ∧
    escapeChar '>' = "&gt;".data ∧
    escapeChar '"' = "&quot;".data ∧
    escape_html "1<2 <b>hello</b>" = "1&lt;2 &lt;b&gt;hello&lt;/b&gt;" ∧
    render_data (fun n : Int => toString n) [Node.Value "value" "t"]
      [("value", Data.Strng "1<2 <b>hello</b>")] =
      Except.ok "1&lt;2 &lt;b&gt;hello&lt;/b&gt;" ∧
    render_data (fun n : Int => toString n) [Node.Unescaped "value" "t"]
      [("value", Data.Strng "1<2 <b>hello</b>")] =
      Except.ok "1<2 <b>hello</b>" := by
  refine ⟨?_, by decide, by decide, by decide, by decide, by decide, rfl, rfl⟩
  intro c h1 h2 h3 h4
  exact escapeChar_nonspecial h1 h2 h3 h4

/-- C3 witness: the apostrophe is not one of the four characters, and
escape_html leaves it alone. -/
theorem c3_witness :
    (Char.ofNat 39 ≠ '&') ∧ escapeChar (Char.ofNat 39) = [Char.ofNat 39] :=
  ⟨by decide,
    c3_escape_exactly_four.1 (Char.ofNat 39) (by decide) (by decide) (by decide) (by decide)⟩

/-- C4: for a section-open token, parse_nodes finds the matching close by
the same-name nesting counter seeded at 1 (later same-name opens increment,
same-name closes decrement, the close reaching zero is the match, formalised
by specMatchIndex); the token at the matched position is the close tag, all
tokens strictly before it, whatever their names, become the section's child
token list, recursively parsed into the Section node's children, and
iteration resumes with the tokens after the matched close. -/
theorem c4_section_matching (name : String) (inverted : Bool) (raw : String)
    (rest : List Token) (k : Nat)
    (h : specMatchIndex name rest 1 = some k) :
    ∃ temp, rest.get? k = some (Token.CTag name temp) ∧
      parse_nodes (Token.OTag name inverted raw :: rest) =
        Node.Section name (parse_nodes (rest.take k)) inverted raw temp ::
          parse_nodes (rest.drop (k + 1)) := by
  obtain ⟨temp, hget, hseek⟩ := seekClose_spec name rest 1 k h
  refine ⟨temp, hget, ?_⟩
  rw [parse_nodes]
  split
  · rename_i children temp2 after heq
    rw [hseek] at heq
    simp only [Option.some.injEq, Prod.mk.injEq] at heq
    obtain ⟨hc, ht, ha⟩ := heq
    rw [← hc, ← ht, ← ha]
  · rename_i heq
    rw [hseek] at heq
    cases heq

/-- C4 witness: on a nested same-name section the counter rule designates
the second same-name close, at index 3 after the open. -/
theorem c4_witness :
    specMatchIndex "a"
      [Token.OTag "a" false "o2", Token.CTag "a" "c2", Token.Text "x",
        Token.CTag "a" "c1", Token.Text "y"] 1 = some 3 ∧
    (∃ temp,
      ([Token.OTag "a" false "o2", Token.CTag "a" "c2", Token.Text "x",
        Token.CTag "a" "c1", Token.Text "y"] : List Token).get? 3 =
        some (Token.CTag "a" temp) ∧
      parse_nodes (Token.OTag "a" true "o1" ::
        [Token.OTag "a" false "o2", Token.CTag "a" "c2", Token.Text "x",
          Token.CTag "a" "c1", Token.Text "y"]) =
        Node.Section "a"
          (parse_nodes ([Token.OTag "a" false "o2", Token.CTag "a" "c2",
            Token.Text "x", Token.CTag "a" "c1", Token.Text "y"].take 3))
          true "o1" temp ::
          parse_nodes ([Token.OTag "a" false "o2", Token.CTag "a" "c2",
            Token.Text "x", Token.CTag "a" "c1", Token.Text "y"].drop 4)) :=
  ⟨by decide,
    c4_section_matching "a" true "o1"
      [Token.OTag "a" false "o2", Token.CTag "a" "c2", Token.Text "x",
        Token.CTag "a" "c1", Token.Text "y"] 3 (by decide)⟩

/-- C5: evaluation of parse_nodes at the failing input.  A dangling close is
silently dropped (first conjunct, as the claim says); but a section-open with
no matching close does not drop everything after it: the source advances its
iterator one position short of the scanned count, so the final token of the
list is still processed, and the token list of text b, an unclosed open of
section a, then texts x and y parses to the static nodes b and y, not to b
alone as the claim (and the source's own comment at src/parser.rs lines
117-118) says. -/
theorem c5_unclosed_section_leaks_last_token :
    parse_nodes [Token.CTag "a" "c", Token.Text "x"] = [Node.Static "x"] ∧
    parse_nodes [Token.Text "b", Token.OTag "a" false "o", Token.Text "x",
      Token.Text "y"] = [Node.Static "b", Node.Static "y"] := by
  constructor
  · simp [parse_nodes]
  · simp [parse_nodes, seekClose, pushTok, List.getLast?]

/-- C6: a dotted variable parses to the same tree shape as the explicit
section form, whatever the raw tag texts are; in general every dotted
variable token yields the single-child Section on the first segment with a
Value child on the last segment and synthesized tag texts, and every dotted
raw token likewise yields that Section with an Unescaped child whose
synthesized tag uses the ampersand form exactly when the raw tag text holds
an ampersand; intermediate segments of longer paths are dropped. -/
theorem c6_dotted_path_desugar :
    (∀ r1 r2 r3 r4 : String,
      shapesOf (parse_nodes [Token.Variable "a.b" r1]) =
        shapesOf (parse_nodes [Token.OTag "a" false r2, Token.Variable "b" r3,
          Token.CTag "a" r4])) ∧
    (∀ name raw : String, containsChar name '.' = true →
      parse_nodes [Token.Variable name raw] =
        [Node.Section ((dotParts name).headD "")
          [Node.Value ((dotParts name).getLastD "")
            ("\x7b\x7b" ++ (dotParts name).getLastD "" ++ "\x7d\x7d")] false
          ("\x7b\x7b#" ++ (dotParts name).headD "" ++ "\x7d\x7d")
          ("\x7b\x7b/" ++ (dotParts name).headD "" ++ "\x7d\x7d")]) ∧
    (∀ name raw : String, containsChar name '.' = true →
      parse_nodes [Token.Raw name raw] =
        [Node.Section ((dotParts name).headD "")
          [Node.Unescaped ((dotParts name).getLastD "")
            (if containsChar raw '&' then
              "\x7b\x7b&" ++ (dotParts name).getLastD "" ++ "\x7d\x7d"
            else
              "\x7b\x7b\x7b" ++ (dotParts name).getLastD "" ++ "\x7d\x7d\x7d")] false
          ("\x7b\x7b#" ++ (dotParts name).headD "" ++ "\x7d\x7d")
          ("\x7b\x7b/" ++ (dotParts name).headD "" ++ "\x7d\x7d")]) ∧
    (∀ r : String, shapesOf (parse_nodes [Token.Variable "a.m.b" r]) =
      [Shape.Section "a" [Shape.Value "b"] false]) ∧
    (∀ r : String, shapesOf (parse_nodes [Token.Raw "a.b" r]) =
      [Shape.Section "a" [Shape.Unescaped "b"] false]) := by
  have hab : containsChar "a.b" '.' = true := by decide
  have hamb : containsChar "a.m.b" '.' = true := by decide
  have hb : containsChar "b" '.' = false := by decide
  have pab : dotParts "a.b" = ["a", "b"] := by decide
  have pamb : dotParts "a.m.b" = ["a", "m", "b"] := by decide
  refine ⟨?_, ?_, ?_, ?_, ?_⟩
  · intro r1 r2 r3 r4
    simp [parse_nodes, seekClose, pushTok, variableNode, hab, hb, pab,
      shapesOf, shapeOf]
  · intro name raw h
    simp [parse_nodes, variableNode, h]
  · intro name raw h
    simp [parse_nodes, rawNode, h]
  · intro r
    simp [parse_nodes, variableNode, hamb, pamb, shapesOf, shapeOf]
  · intro r
    simp [parse_nodes, rawNode, hab, pab, shapesOf, shapeOf]

/-- C6 witness: the section.child_tag tokens of the source's own test cases
desugar into the synthesized section with a value child for the variable
token and with an unescaped child (in the ampersand tag form, since the raw
tag text holds an ampersand) for the raw token. -/
theorem c6_witness :
    containsChar "section.child_tag" '.' = true ∧
    parse_nodes [Token.Variable "section.child_tag" "t"] =
      [Node.Section ((dotParts "section.child_tag").headD "")
        [Node.Value ((dotParts "section.child_tag").getLastD "")
          ("\x7b\x7b" ++ (dotParts "section.child_tag").getLastD "" ++ "\x7d\x7d")] false
        ("\x7b\x7b#" ++ (dotParts "section.child_tag").headD "" ++ "\x7d\x7d")
        ("\x7b\x7b/" ++ (dotParts "section.child_tag").headD "" ++ "\x7d\x7d")] ∧
    parse_nodes [Token.Raw "section.child_tag" "\x7b\x7b& section.child_tag \x7d\x7d"] =
      [Node.Section ((dotParts "section.child_tag").headD "")
        [Node.Unescaped ((dotParts "section.child_tag").getLastD "")
          (if containsChar "\x7b\x7b& section.child_tag \x7d\x7d" '&' then
            "\x7b\x7b&" ++ (dotParts "section.child_tag").getLastD "" ++ "\x7d\x7d"
          else
            "\x7b\x7b\x7b" ++ (dotParts "section.child_tag").getLastD "" ++ "\x7d\x7d\x7d")] false
        ("\x7b\x7b#" ++ (dotParts "section.child_tag").headD "" ++ "\x7d\x7d")
        ("\x7b\x7b/" ++ (dotParts "section.child_tag").headD "" ++ "\x7d\x7d")] :=
  ⟨by decide, c6_dotted_path_desugar.2.1 "section.child_tag" "t" (by decide),
    c6_dotted_path_desugar.2.2.1 "section.child_tag"
      "\x7b\x7b& section.child_tag \x7d\x7d" (by decide)⟩

/-- C7: an absent key makes a Value or Unescaped node render nothing without
failing (the rest of the list renders as if the node were absent); a Boolean
renders "true"/"false"; an Integer renders in decimal via toString; a Float
renders through the decimal form frepr of the abstracted f64 payload. -/
theorem c7_scalar_rendering {α : Type} (frepr : α → String)
    (key raw : String) (rest : List Node) (datastore : List (String × Data α)) :
    (datastore.lookup key = none →
      render_data frepr (Node.Value key raw :: rest) datastore =
        render_data frepr rest datastore ∧
      render_data frepr (Node.Unescaped key raw :: rest) datastore =
        render_data frepr rest datastore) ∧
    (∀ b, datastore.lookup key = some (Data.Bool b) →
      render_data frepr [Node.Value key raw] datastore =
        Except.ok (if b then "true" else "false") ∧
      render_data frepr [Node.Unescaped key raw] datastore =
        Except.ok (if b then "true" else "false")) ∧
    (∀ n : Int, datastore.lookup key = some (Data.Integer n) →
      render_data frepr [Node.Value key raw] datastore = Except.ok (toString n) ∧
      render_data frepr [Node.Unescaped key raw] datastore = Except.ok (toString n)) ∧
    (∀ f : α, datastore.lookup key = some (Data.Float f) →
      render_data frepr [Node.Value key raw] datastore = Except.ok (frepr f) ∧
      render_data frepr [Node.Unescaped key raw] datastore = Except.ok (frepr f)) := by
  refine ⟨fun h => ⟨?_, ?_⟩, fun b h => ⟨?_, ?_⟩, fun n h => ⟨?_, ?_⟩,
    fun f h => ⟨?_, ?_⟩⟩ <;>
    simp [render_data, h, handle_value_node, handle_unescaped_node,
      String.append_empty]

/-- C7 witness: an integer renders in decimal and a missing key renders
nothing. -/
theorem c7_witness :
    ([("k", (Data.Integer 7 : Data Int))].lookup "k" = some (Data.Integer 7)) ∧
    render_data (fun n : Int => toString n) [Node.Value "k" "t"]
      [("k", Data.Integer 7)] = Except.ok (toString (7 : Int)) ∧
    (([] : List (String × Data Int)).lookup "missing" = none) ∧
    render_data (fun n : Int => toString n) [Node.Value "missing" "t"]
      ([] : List (String × Data Int)) =
      render_data (fun n : Int => toString n) [] [] :=
  ⟨rfl,
    ((c7_scalar_rendering (fun n : Int => toString n) "k" "t" []
      [("k", Data.Integer 7)]).2.2.1 7 rfl).1,
    rfl,
    ((c7_scalar_rendering (fun n : Int => toString n) "missing" "t" []
      ([] : List (String × Data Int))).1 rfl).1⟩

/-- C8: on a token list containing no section-open and no section-close
token, parse_nodes maps each token to exactly one node in source order, so
the output has the same length as the input. -/
theorem c8_no_section_tokens_one_to_one (ts : List Token)
    (h : ts.all nonSection = true) :
    parse_nodes ts = ts.map simpleNode ∧ (parse_nodes ts).length = ts.length := by
  have main : ∀ l : List Token, l.all nonSection = true →
      parse_nodes l = l.map simpleNode := by
    intro l
    induction l with
    | nil => intro _; simp [parse_nodes]
    | cons t rest ih =>
      intro hl
      rw [List.all_cons, Bool.and_eq_true] at hl
      obtain ⟨ht, hrest⟩ := hl
      cases t with
      | Text s => simp [parse_nodes, simpleNode, ih hrest]
      | Variable n r => simp [parse_nodes, simpleNode, ih hrest]
      | Raw n r => simp [parse_nodes, simpleNode, ih hrest]
      | Part n r => simp [parse_nodes, simpleNode, ih hrest]
      | OTag a b c => simp [nonSection] at ht
      | CTag a b => simp [nonSection] at ht
  exact ⟨main ts h, by rw [main ts h, List.length_map]⟩

/-- C8 witness: a four-token list with one of each non-section token kind
parses to its per-token node images. -/
theorem c8_witness :
    ([Token.Text "a", Token.Variable "v" "r", Token.Raw "u" "s",
      Token.Part "p" "q"].all nonSection = true) ∧
    parse_nodes [Token.Text "a", Token.Variable "v" "r", Token.Raw "u" "s",
      Token.Part "p" "q"] =
      [Token.Text "a", Token.Variable "v" "r", Token.Raw "u" "s",
        Token.Part "p" "q"].map simpleNode :=
  ⟨by decide,
    (c8_no_section_tokens_one_to_one
      [Token.Text "a", Token.Variable "v" "r", Token.Raw "u" "s",
        Token.Part "p" "q"] (by decide)).1⟩

/-- C9: escape_html is not idempotent on strings containing one of the four
escaped characters (escaping again strictly grows the string, because the
first pass introduced an ampersand and the second escapes it), and it is
idempotent on strings free of all four. -/
theorem c9_escape_not_idempotent (x : String) :
    (x.data.any isEscChar = true →
      escape_html (escape_html x) ≠ escape_html x) ∧
    (x.data.all (fun c => !isEscChar c) = true →
      escape_html (escape_html x) = escape_html x) := by
  constructor
  · intro h hcontra
    have hamp : '&' ∈ escapeList x.data := escapeList_amp_mem h
    have hgrow : (escapeList x.data).length < (escapeList (escapeList x.data)).length :=
      escapeList_grow hamp
    have hd : escapeList (escapeList x.data) = escapeList x.data :=
      congrArg String.data hcontra
    rw [hd] at hgrow
    omega
  · intro h
    have h2 : escapeList x.data = x.data := escapeList_id h
    show String.mk (escapeList (escapeList x.data)) = String.mk (escapeList x.data)
    rw [h2, h2]

/-- C9 witness: a string with an ampersand escapes non-idempotently, one
without any of the four characters escapes idempotently. -/
theorem c9_witness :
    ("a&b".data.any isEscChar = true) ∧
    escape_html (escape_html "a&b") ≠ escape_html "a&b" ∧
    ("abc".data.all (fun c => !isEscChar c) = true) ∧
    escape_html (escape_html "abc") = escape_html "abc" :=
  ⟨by decide, (c9_escape_not_idempotent "a&b").1 (by decide),
    by decide, (c9_escape_not_idempotent "abc").2 (by decide)⟩

/-- C10: comparing two Lambda data values fails fast with the panic message
instead of returning an answer; comparing a Lambda with any non-Lambda
variant returns false without failing, on either side; and matching
non-Lambda variants compare their payloads (strings, booleans, integers and
the abstracted floats directly, vectors and hashes by the length-checked
element-wise comparisons). -/
theorem c10_data_partial_eq {α : Type} (feq : α → α → Bool) (i j : Nat)
    (d : Data α) (h : isLambda d = false) :
    dataEq feq (Data.Lambda i) (Data.Lambda j) =
      Except.error "Can't compare closures" ∧
    dataEq feq (Data.Lambda i) d = Except.ok false ∧
    dataEq feq d (Data.Lambda i) = Except.ok false ∧
    (∀ a b : String, dataEq feq (Data.Strng a) (Data.Strng b) = Except.ok (a == b)) ∧
    (∀ a b : Bool, dataEq feq (Data.Bool a) (Data.Bool b) = Except.ok (a == b)) ∧
    (∀ a b : Int, dataEq feq (Data.Integer a) (Data.Integer b) = Except.ok (a == b)) ∧
    (∀ a b : α, dataEq feq (Data.Float a) (Data.Float b) = Except.ok (feq a b)) ∧
    (∀ a b : List (Data α), dataEq feq (Data.Vector a) (Data.Vector b) =
      if a.length = b.length then vecElemsEq feq a b else Except.ok false) ∧
    (∀ a b : List (String × Data α), dataEq feq (Data.Hash a) (Data.Hash b) =
      if a.length = b.length then hashEntriesEq feq a b else Except.ok false) := by
  refine ⟨by simp [dataEq], ?_, ?_, fun a b => by simp [dataEq],
    fun a b => by simp [dataEq], fun a b => by simp [dataEq],
    fun a b => by simp [dataEq], fun a b => by simp [dataEq],
    fun a b => by simp [dataEq]⟩
  · cases d with
    | Lambda k => simp [isLambda] at h
    | Strng s => simp [dataEq]
    | Bool b => simp [dataEq]
    | Integer n => simp [dataEq]
    | Float f => simp [dataEq]
    | Vector v => simp [dataEq]
    | Hash hm => simp [dataEq]
  · cases d with
    | Lambda k => simp [isLambda] at h
    | Strng s => simp [dataEq]
    | Bool b => simp [dataEq]
    | Integer n => simp [dataEq]
    | Float f => simp [dataEq]
    | Vector v => simp [dataEq]
    | Hash hm => simp [dataEq]

/-- C10 witness: the Lambda-Lambda comparison fails fast while the
Lambda-string comparison is false. -/
theorem c10_witness :
    isLambda ((Data.Strng "s") : Data Int) = false ∧
    dataEq (fun a b : Int => a == b) (Data.Lambda 0) (Data.Lambda 1) =
      Except.error "Can't compare closures" ∧
    dataEq (fun a b : Int => a == b) (Data.Lambda 0) (Data.Strng "s") =
      Except.ok false :=
  ⟨rfl,
    (c10_data_partial_eq (fun a b : Int => a == b) 0 1 (Data.Strng "s") rfl).1,
    (c10_data_partial_eq (fun a b : Int => a == b) 0 1 (Data.Strng "s") rfl).2.1⟩
